import Mathlib

/-!
Verification of the action-solver dependency execution engine.

The development shallowly embeds the core of the repository:
`action_solver/builder.py` (graph accumulation), `action_solver/solver.py`
(graph validation and sequential execution) and `action_solver/action.py`
(the action/result contract).  The igraph `Graph` is modelled as a vertex
count together with an edge list (igraph keeps multi-edges, so the edge
container is a list, not a set); `topological_sorting` and `is_dag` are
modelled by in-degree peeling, which is how igraph implements both calls.
Python dictionaries are modelled as association lists with overwrite-on-
insert semantics.
-/

namespace ActionSolverSpec

/-- Python `dict` assignment `m[k] = v`: replace the value in place when the
key is present, append a new binding otherwise. -/
def dictInsert {K V : Type} [DecidableEq K] : List (K × V) → K → V → List (K × V)
  | [], k, v => [(k, v)]
  | (k', v') :: rest, k, v =>
      if k' = k then (k, v) :: rest else (k', v') :: dictInsert rest k v

/-- Python `dict` lookup `m.get(k)` / `m[k]` (first binding wins; a dict
built through `dictInsert` has unique keys). -/
def dictGet? {K V : Type} [DecidableEq K] : List (K × V) → K → Option V
  | [], _ => none
  | (k', v') :: rest, k => if k' = k then some v' else dictGet? rest k

theorem dictGet?_dictInsert_self {K V : Type} [DecidableEq K]
    (m : List (K × V)) (k : K) (v : V) :
    dictGet? (dictInsert m k v) k = some v := by
  induction m with
  | nil => simp [dictInsert, dictGet?]
  | cons p rest ih =>
      by_cases h : p.1 = k
      · simp [dictInsert, dictGet?, h]
      · simp [dictInsert, dictGet?, h, ih]

theorem dictGet?_dictInsert_ne {K V : Type} [DecidableEq K]
    (m : List (K × V)) (k k' : K) (v : V) (hne : k' ≠ k) :
    dictGet? (dictInsert m k v) k' = dictGet? m k' := by
  have hkk : ¬k = k' := fun h => hne h.symm
  induction m with
  | nil => simp [dictInsert, dictGet?, hkk]
  | cons p rest ih =>
      by_cases h : p.1 = k
      · subst h
        simp [dictInsert, dictGet?, hkk]
      · simp [dictInsert, dictGet?, h, ih]

theorem length_dictInsert_of_not_mem {K V : Type} [DecidableEq K]
    (m : List (K × V)) (k : K) (v : V) (h : dictGet? m k = none) :
    (dictInsert m k v).length = m.length + 1 := by
  induction m with
  | nil => simp [dictInsert]
  | cons p rest ih =>
      by_cases hk : p.1 = k
      · simp [dictGet?, hk] at h
      · simp [dictGet?, hk] at h
        simp [dictInsert, hk, ih h]

theorem length_dictInsert_of_mem {K V : Type} [DecidableEq K]
    (m : List (K × V)) (k : K) (v : V) (h : dictGet? m k ≠ none) :
    (dictInsert m k v).length = m.length := by
  induction m with
  | nil => simp [dictGet?] at h
  | cons p rest ih =>
      by_cases hk : p.1 = k
      · simp [dictInsert, hk]
      · simp [dictGet?, hk] at h
        simp [dictInsert, hk, ih h]

/-! ## The dependency graph (igraph `Graph(directed=True)`) -/

/-- A directed (multi-)graph as igraph exposes it to `builder.py`: vertices
are the ordinals `0 .. n-1` (one per registered action class) and `edges`
is the list of `add_edge` calls, in order, duplicates retained. -/
structure Graph where
  n : Nat
  edges : List (Nat × Nat)
deriving DecidableEq

/-- The edge relation of the graph (an edge from `u` to `v` means `u` must
execute before `v`: `builder.py` adds `depends_on -> action`). -/
def edgeRel (g : Graph) (u v : Nat) : Prop := (u, v) ∈ g.edges

/-- All edges name valid vertices; `builder.py` only ever adds edges between
registered action ordinals, so its graphs satisfy this. -/
def Graph.wf (g : Graph) : Prop := ∀ e ∈ g.edges, e.1 < g.n ∧ e.2 < g.n

instance (g : Graph) : Decidable g.wf := by
  unfold Graph.wf
  infer_instance

/-- A directed cycle: some vertex reaches itself through at least one edge. -/
def HasCycle (g : Graph) : Prop := ∃ v, Relation.TransGen (edgeRel g) v v

/-- Vertex `v` has no incoming edge from a vertex still in `rem` (in-degree
zero in the subgraph induced by the unprocessed vertices). -/
def noIncoming (g : Graph) (rem : List Nat) (v : Nat) : Bool :=
  g.edges.all fun e => !(e.2 == v && rem.contains e.1)

/-- In-degree peeling: repeatedly emit a remaining vertex without incoming
edges from the remaining set.  Stops early when none exists (a cycle). -/
def kahnAux (g : Graph) : Nat → List Nat → List Nat
  | 0, _ => []
  | fuel + 1, rem =>
      match rem.find? (noIncoming g rem) with
      | none => []
      | some v => v :: kahnAux g fuel (rem.erase v)

/-- igraph `Graph.topological_sorting()` as used by `solve()`: a topological
order of the vertices, computed by in-degree peeling (igraph's own
algorithm); on a graph with a cycle it covers only the peelable part. -/
def topological_sorting (g : Graph) : List Nat :=
  kahnAux g g.n (List.range g.n)

/-- igraph `Graph.is_dag()` as used by the solver constructor: the graph is
acyclic exactly when in-degree peeling exhausts every vertex. -/
def is_dag (g : Graph) : Bool :=
  (topological_sorting g).length == g.n

theorem kahnAux_subset (g : Graph) :
    ∀ (fuel : Nat) (rem : List Nat), ∀ x ∈ kahnAux g fuel rem, x ∈ rem := by
  intro fuel
  induction fuel with
  | zero => intro rem x hx; simp [kahnAux] at hx
  | succ fuel ih =>
      intro rem x hx
      simp only [kahnAux] at hx
      cases hfind : rem.find? (noIncoming g rem) with
      | none => rw [hfind] at hx; simp at hx
      | some v =>
          rw [hfind] at hx
          simp only [List.mem_cons] at hx
          rcases hx with rfl | hx
          · exact List.mem_of_find?_eq_some hfind
          · exact List.mem_of_mem_erase (ih _ x hx)

theorem kahnAux_nodup (g : Graph) :
    ∀ (fuel : Nat) (rem : List Nat), rem.Nodup → (kahnAux g fuel rem).Nodup := by
  intro fuel
  induction fuel with
  | zero => intro rem _; simp [kahnAux]
  | succ fuel ih =>
      intro rem hrem
      simp only [kahnAux]
      cases hfind : rem.find? (noIncoming g rem) with
      | none => simp
      | some v =>
          refine List.nodup_cons.mpr ⟨?_, ih _ (hrem.erase v)⟩
          intro hv
          exact hrem.not_mem_erase (kahnAux_subset g fuel _ v hv)

theorem kahnAux_length_le (g : Graph) :
    ∀ (fuel : Nat) (rem : List Nat), (kahnAux g fuel rem).length ≤ rem.length := by
  intro fuel
  induction fuel with
  | zero => intro rem; simp [kahnAux]
  | succ fuel ih =>
      intro rem
      simp only [kahnAux]
      cases hfind : rem.find? (noIncoming g rem) with
      | none => simp
      | some v =>
          have hv : v ∈ rem := List.mem_of_find?_eq_some hfind
          have := ih (rem.erase v)
          have hlen : (rem.erase v).length = rem.length - 1 :=
            List.length_erase_of_mem hv
          have hpos : 1 ≤ rem.length := List.length_pos.mpr (List.ne_nil_of_mem hv)
          simp only [List.length_cons]
          omega

theorem kahnAux_succ_none (g : Graph) (fuel : Nat) (rem : List Nat)
    (h : rem.find? (noIncoming g rem) = none) :
    kahnAux g (fuel + 1) rem = [] := by
  simp [kahnAux, h]

theorem kahnAux_succ_some (g : Graph) (fuel : Nat) (rem : List Nat) (v : Nat)
    (h : rem.find? (noIncoming g rem) = some v) :
    kahnAux g (fuel + 1) rem = v :: kahnAux g fuel (rem.erase v) := by
  simp [kahnAux, h]

theorem kahnAux_topo (g : Graph) :
    ∀ (fuel : Nat) (rem : List Nat), rem.Nodup →
      (kahnAux g fuel rem).length = rem.length →
      ∀ u v, (u, v) ∈ g.edges → u ∈ rem → v ∈ rem →
        (kahnAux g fuel rem).indexOf u < (kahnAux g fuel rem).indexOf v := by
  intro fuel
  induction fuel with
  | zero =>
      intro rem _ hlen u v _ hu _
      simp [kahnAux] at hlen
      rw [List.length_eq_zero.mp hlen.symm] at hu
      simp at hu
  | succ fuel ih =>
      intro rem hnd hlen u v he hu hv
      cases hfind : rem.find? (noIncoming g rem) with
      | none =>
          rw [kahnAux_succ_none g fuel rem hfind] at hlen
          simp at hlen
          rw [List.length_eq_zero.mp hlen.symm] at hu
          simp at hu
      | some w =>
          rw [kahnAux_succ_some g fuel rem w hfind] at hlen ⊢
          have hwmem : w ∈ rem := List.mem_of_find?_eq_some hfind
          have hwno : noIncoming g rem w = true := List.find?_some hfind
          have hblock : ∀ e ∈ g.edges, ¬(e.2 = w ∧ e.1 ∈ rem) := by
            intro e hemem
            unfold noIncoming at hwno
            have := (List.all_eq_true.mp hwno) e hemem
            intro hcontra
            simp [hcontra.1, hcontra.2] at this
          have hvne : v ≠ w := by
            intro hvw
            exact hblock (u, v) he ⟨hvw, hu⟩
          have hlen' : (kahnAux g fuel (rem.erase w)).length = (rem.erase w).length := by
            have h1 : (rem.erase w).length = rem.length - 1 :=
              List.length_erase_of_mem hwmem
            have h2 : 1 ≤ rem.length := List.length_pos.mpr (List.ne_nil_of_mem hwmem)
            simp only [List.length_cons] at hlen
            omega
          by_cases huw : u = w
          · subst huw
            rw [List.indexOf_cons_self]
            rw [List.indexOf_cons_ne _ (fun h => hvne h.symm)]
            omega
          · have hu' : u ∈ rem.erase w := (List.mem_erase_of_ne huw).mpr hu
            have hv' : v ∈ rem.erase w := (List.mem_erase_of_ne hvne).mpr hv
            have := ih (rem.erase w) (hnd.erase w) hlen' u v he hu' hv'
            rw [List.indexOf_cons_ne _ (fun h => huw h.symm)]
            rw [List.indexOf_cons_ne _ (fun h => hvne h.symm)]
            omega

/-- The edge relation restricted to vertices of the set `S`. -/
def restrRel (g : Graph) (S : List Nat) (u v : Nat) : Prop :=
  (u, v) ∈ g.edges ∧ u ∈ S ∧ v ∈ S

/-- A directed cycle running entirely inside the vertex set `S`. -/
def CycleIn (g : Graph) (S : List Nat) : Prop :=
  ∃ v, Relation.TransGen (restrRel g S) v v

/-- A predecessor-in-`rem` of `v`, for vertices that have one. -/
def pickPred (g : Graph) (rem : List Nat) (v : Nat) : Nat :=
  match g.edges.find? (fun e => e.2 == v && rem.contains e.1) with
  | some e => e.1
  | none => v

theorem pickPred_spec (g : Graph) (rem : List Nat) (v : Nat)
    (h : noIncoming g rem v = false) :
    (pickPred g rem v, v) ∈ g.edges ∧ pickPred g rem v ∈ rem := by
  unfold noIncoming at h
  have hex : ∃ e ∈ g.edges, (e.2 == v && rem.contains e.1) = true := by
    by_contra hall
    push_neg at hall
    have hA : (g.edges.all fun e => !(e.2 == v && rem.contains e.1)) = true :=
      List.all_eq_true.mpr fun e he => by
        have hx : (e.2 == v && rem.contains e.1) = false :=
          Bool.eq_false_iff.mpr (hall e he)
        show (!(e.2 == v && rem.contains e.1)) = true
        rw [hx]
        rfl
    rw [hA] at h
    cases h
  obtain ⟨e, hemem, hprop⟩ := hex
  obtain ⟨e', hf⟩ :
      ∃ e', g.edges.find? (fun e => e.2 == v && rem.contains e.1) = some e' :=
    Option.isSome_iff_exists.mp (List.find?_isSome.mpr ⟨e, hemem, hprop⟩)
  have he'mem : e' ∈ g.edges := List.mem_of_find?_eq_some hf
  have he'prop := List.find?_some hf
  obtain ⟨p, q⟩ := e'
  simp only [Bool.and_eq_true, beq_iff_eq] at he'prop
  obtain ⟨rfl, hp⟩ := he'prop
  constructor
  · simp only [pickPred, hf]
    exact he'mem
  · simp only [pickPred, hf]
    simpa using hp

theorem cycleIn_of_no_source (g : Graph) (rem : List Nat)
    (hne : rem ≠ [])
    (hall : ∀ v ∈ rem, noIncoming g rem v = false) :
    CycleIn g rem := by
  obtain ⟨v0, hv0⟩ : ∃ v, v ∈ rem := by
    cases rem with
    | nil => exact absurd rfl hne
    | cons a l => exact ⟨a, List.mem_cons_self a l⟩
  set f : Nat → Nat := fun k => (pickPred g rem)^[k] v0 with hf
  have hmem : ∀ k, f k ∈ rem := by
    intro k
    induction k with
    | zero => simpa [hf] using hv0
    | succ k ihk =>
        have hit : f (k + 1) = pickPred g rem (f k) := by
          simp [hf, Function.iterate_succ_apply']
        rw [hit]
        exact (pickPred_spec g rem (f k) (hall _ ihk)).2
  have hstep : ∀ k, restrRel g rem (f (k + 1)) (f k) := by
    intro k
    have hit : f (k + 1) = pickPred g rem (f k) := by
      simp [hf, Function.iterate_succ_apply']
    have hsp := pickPred_spec g rem (f k) (hall _ (hmem k))
    exact ⟨by rw [hit]; exact hsp.1, by rw [hit]; exact hsp.2, hmem k⟩
  have hchain : ∀ i d, Relation.TransGen (restrRel g rem) (f (i + d + 1)) (f i) := by
    intro i d
    induction d with
    | zero => exact Relation.TransGen.single (hstep i)
    | succ d ihd =>
        have harith : i + (d + 1) + 1 = (i + d + 1) + 1 := by omega
        rw [harith]
        exact Relation.TransGen.head (hstep (i + d + 1)) ihd
  have hcard : rem.toFinset.card < Fintype.card (Fin (rem.length + 1)) := by
    have := List.toFinset_card_le rem
    simp only [Fintype.card_fin]
    omega
  have hclt : rem.toFinset.card < (Finset.univ : Finset (Fin (rem.length + 1))).card := by
    simpa using hcard
  have hmaps : ∀ k ∈ (Finset.univ : Finset (Fin (rem.length + 1))),
      (fun k : Fin (rem.length + 1) => f k.val) k ∈ rem.toFinset :=
    fun k _ => List.mem_toFinset.mpr (hmem k.val)
  obtain ⟨a, _, b, _, hab, hfab⟩ :=
    Finset.exists_ne_map_eq_of_card_lt_of_maps_to hclt hmaps
  rcases Nat.lt_or_ge a.val b.val with hlt | hge
  · refine ⟨f a.val, ?_⟩
    have hc : Relation.TransGen (restrRel g rem)
        (f (a.val + (b.val - a.val - 1) + 1)) (f a.val) :=
      hchain a.val (b.val - a.val - 1)
    have heq : a.val + (b.val - a.val - 1) + 1 = b.val := by omega
    rw [heq, ← hfab] at hc
    exact hc
  · have hlt : b.val < a.val := by
      rcases Nat.lt_or_ge b.val a.val with h | h
      · exact h
      · exact absurd (Fin.ext (Nat.le_antisymm h hge)) hab
    refine ⟨f b.val, ?_⟩
    have hc : Relation.TransGen (restrRel g rem)
        (f (b.val + (a.val - b.val - 1) + 1)) (f b.val) :=
      hchain b.val (a.val - b.val - 1)
    have heq : b.val + (a.val - b.val - 1) + 1 = a.val := by omega
    rw [heq, hfab] at hc
    exact hc

theorem kahnAux_complete (g : Graph) :
    ∀ (fuel : Nat) (rem : List Nat), rem.Nodup → rem.length ≤ fuel →
      ¬CycleIn g rem → (kahnAux g fuel rem).length = rem.length := by
  intro fuel
  induction fuel with
  | zero =>
      intro rem _ hlen _
      have : rem = [] := List.length_eq_zero.mp (Nat.le_zero.mp hlen)
      subst this
      simp [kahnAux]
  | succ fuel ih =>
      intro rem hnd hlen hnc
      cases hfind : rem.find? (noIncoming g rem) with
      | none =>
          cases hrem : rem with
          | nil => subst hrem; simp [kahnAux]
          | cons a l =>
              exfalso
              apply hnc
              apply cycleIn_of_no_source g rem (by rw [hrem]; simp)
              intro v hv
              have := List.find?_eq_none.mp hfind v hv
              simpa using this
      | some w =>
          rw [kahnAux_succ_some g fuel rem w hfind]
          have hwmem : w ∈ rem := List.mem_of_find?_eq_some hfind
          have h1 : (rem.erase w).length = rem.length - 1 :=
            List.length_erase_of_mem hwmem
          have h2 : 1 ≤ rem.length := List.length_pos.mpr (List.ne_nil_of_mem hwmem)
          have hnc' : ¬CycleIn g (rem.erase w) := by
            intro hcy
            obtain ⟨v, hv⟩ := hcy
            exact hnc ⟨v, hv.mono (fun a b hab =>
              ⟨hab.1, List.mem_of_mem_erase hab.2.1, List.mem_of_mem_erase hab.2.2⟩)⟩
          have := ih (rem.erase w) (hnd.erase w) (by omega) hnc'
          simp only [List.length_cons]
          omega

theorem transGen_restr_of_wf (g : Graph) (hwf : g.wf) {u v : Nat}
    (h : Relation.TransGen (edgeRel g) u v) :
    Relation.TransGen (restrRel g (List.range g.n)) u v := by
  induction h with
  | single he =>
      exact Relation.TransGen.single
        ⟨he, List.mem_range.mpr (hwf _ he).1, List.mem_range.mpr (hwf _ he).2⟩
  | tail _ he ihx =>
      exact Relation.TransGen.tail ihx
        ⟨he, List.mem_range.mpr (hwf _ he).1, List.mem_range.mpr (hwf _ he).2⟩

theorem is_dag_length (g : Graph) (hdag : is_dag g = true) :
    (topological_sorting g).length = g.n := by
  simpa [is_dag] using hdag

/-- Every (transitive) dependency comes strictly earlier in the computed
topological order. -/
theorem topological_sorting_respects_deps (g : Graph) (hwf : g.wf)
    (hdag : is_dag g = true) {u v : Nat}
    (h : Relation.TransGen (edgeRel g) u v) :
    (topological_sorting g).indexOf u < (topological_sorting g).indexOf v := by
  have hlen : (topological_sorting g).length = (List.range g.n).length := by
    have := is_dag_length g hdag
    simpa using this
  have htopo : ∀ u v, (u, v) ∈ g.edges → u ∈ List.range g.n → v ∈ List.range g.n →
      (topological_sorting g).indexOf u < (topological_sorting g).indexOf v :=
    kahnAux_topo g g.n (List.range g.n) (List.nodup_range _) hlen
  induction h with
  | single he =>
      exact htopo _ _ he (List.mem_range.mpr (hwf _ he).1)
        (List.mem_range.mpr (hwf _ he).2)
  | tail hx he ihx =>
      have hlast := htopo _ _ he (List.mem_range.mpr (hwf _ he).1)
        (List.mem_range.mpr (hwf _ he).2)
      omega

/-- With valid edges, an in-degree peeling run that exhausts all vertices is
a certificate of acyclicity, and conversely: `is_dag` decides `HasCycle`. -/
theorem is_dag_iff_no_cycle (g : Graph) (hwf : g.wf) :
    is_dag g = true ↔ ¬HasCycle g := by
  constructor
  · intro hdag hcy
    obtain ⟨v, hv⟩ := hcy
    exact absurd (topological_sorting_respects_deps g hwf hdag hv) (by omega)
  · intro hnc
    have hnc' : ¬CycleIn g (List.range g.n) := by
      intro hcy
      obtain ⟨v, hv⟩ := hcy
      exact hnc ⟨v, hv.mono (fun a b hab => hab.1)⟩
    have := kahnAux_complete g g.n (List.range g.n) (List.nodup_range _)
      (by simp) hnc'
    simp [is_dag, topological_sorting, this]

/-- A complete peeling run is a permutation of the vertex set. -/
theorem topological_sorting_perm (g : Graph) (hdag : is_dag g = true) :
    (topological_sorting g).Perm (List.range g.n) := by
  have hsub : topological_sorting g ⊆ List.range g.n := fun x hx =>
    kahnAux_subset g g.n (List.range g.n) x hx
  have hnd : (topological_sorting g).Nodup :=
    kahnAux_nodup g g.n (List.range g.n) (List.nodup_range _)
  have hlen := is_dag_length g hdag
  exact (hnd.subperm hsub).perm_of_length_le (by simp [hlen])

/-! ## Errors, results, state and the action contract (`action.py`) -/

/-- The Python exceptions the engine can raise.  `valueError` is the
construction-time `ConfigurationError` of the spec (cycle / disconnected
graph), `typeError` covers both the final-result check and the
`_raise_type_error` paths, `missingDependencyDeclaration` is
`MissingDependencyDeclarationException`, `keyError` a failed globals
lookup, `notImplementedError` the default `_dry_run_impl`,
`resultNotYetAvailable` the spec's `ResultNotYetAvailable` from the state's
result lookup, and `indexError` an out-of-range action ordinal. -/
inductive PyErr where
  | valueError
  | typeError
  | missingDependencyDeclaration
  | keyError
  | notImplementedError
  | resultNotYetAvailable
  | indexError
deriving DecidableEq

/-- A `Action.Result` instance: its runtime class identity (`RTy`) plus its
payload.  `result.__class__` is the key under which it is stored. -/
structure ResValue (RTy V : Type) where
  cls : RTy
  val : V
deriving DecidableEq

/-- `SolverState`: the run-scoped globals dict and result store.
Modelled from the spec: `state.py` is not among the repository's source
files (only its importers are), so the container shapes follow spec §3/§4.3:
`globals` is a key/value mapping and `results` maps a Result's type identity
to the stored Result. -/
structure SolverState (K V RTy : Type) where
  globals : List (K × V)
  results : List (RTy × ResValue RTy V)
deriving DecidableEq

/-- Modelled from the spec: `SolverState.construct_empty()` yields a state
with empty globals and an empty result store (spec §4.3). -/
def SolverState.construct_empty {K V RTy : Type} : SolverState K V RTy := ⟨[], []⟩

/-- Modelled from the spec: the state's result lookup used by
`Action.get_result`; a declared but not yet computed result fails with
`ResultNotYetAvailable` (spec §4.1). -/
def SolverState.get_result {K V RTy : Type} [DecidableEq RTy]
    (st : SolverState K V RTy) (rt : RTy) : Except PyErr (ResValue RTy V) :=
  match dictGet? st.results rt with
  | some r => Except.ok r
  | none => Except.error PyErr.resultNotYetAvailable

/-- What a concrete `Action` subclass contributes: the value of the
`dependent_actions` property mapped through `T.Result` (the derived
`dependent_results` property of `action.py`), the `_production_impl` body,
and the optional `_dry_run_impl` override (`none` keeps the base
implementation, which raises `NotImplementedError`). -/
structure ActionCls (K V RTy : Type) where
  dependentResults : List RTy
  prodImpl : SolverState K V RTy → Except PyErr (ResValue RTy V)
  dryImpl : Option (SolverState K V RTy → Except PyErr (ResValue RTy V))

/-- `Action.get_result`: reject a result type that is not among the
declared dependent results before even looking at the store. -/
def getResultChecked {K V RTy : Type} [DecidableEq RTy]
    (dependentResults : List RTy) (st : SolverState K V RTy) (rt : RTy) :
    Except PyErr (ResValue RTy V) :=
  if rt ∈ dependentResults then st.get_result rt
  else Except.error PyErr.missingDependencyDeclaration

/-- `Action.get_result` on a concrete action class. -/
def Action.get_result {K V RTy : Type} [DecidableEq RTy]
    (cls : ActionCls K V RTy) (st : SolverState K V RTy) (rt : RTy) :
    Except PyErr (ResValue RTy V) :=
  getResultChecked cls.dependentResults st rt

/-- `Action.get_global`: a plain dict subscript, `KeyError` when absent. -/
def Action.get_global {K V RTy : Type} [DecidableEq K]
    (st : SolverState K V RTy) (k : K) : Except PyErr V :=
  match dictGet? st.globals k with
  | some v => Except.ok v
  | none => Except.error PyErr.keyError

/-- `Action._unwrap_logger`, run by `Action.__init__`:
`self._state.globals.get("logger")` yields Python `None` (`noneV`) when the
key is unbound, and the method raises `TypeError` via `_raise_type_error`
whenever the looked-up value is not a `logging.Logger` — including the
unbound case, since `isinstance(None, logging.Logger)` is false. -/
def unwrap_logger {K V RTy : Type} [DecidableEq K]
    (noneV : V) (isLogger : V → Bool) (loggerKey : K)
    (st : SolverState K V RTy) : Except PyErr V :=
  let logger := (dictGet? st.globals loggerKey).getD noneV
  if isLogger logger then Except.ok logger
  else Except.error PyErr.typeError

/-- `Action.invoke(dry_run)`: dispatch to `_dry_run_impl` (whose base
implementation raises `NotImplementedError`) or `_production_impl`.
The `_log` calls touch no state that later steps observe. -/
def Action.invoke {K V RTy : Type}
    (cls : ActionCls K V RTy) (dryRun : Bool) (st : SolverState K V RTy) :
    Except PyErr (ResValue RTy V) :=
  if dryRun then
    match cls.dryImpl with
    | some impl => impl st
    | none => Except.error PyErr.notImplementedError
  else cls.prodImpl st

/-- `ActionSolver._apply_step(ordinal)`: look the action class up by
ordinal, instantiate it against the shared state (running
`Action.__init__`, which type-checks the state and unwraps the logger),
invoke it, and store the result keyed by its own class. -/
def apply_step {K V RTy : Type} [DecidableEq K] [DecidableEq RTy]
    (actions : List (ActionCls K V RTy)) (dryRun : Bool)
    (noneV : V) (isLogger : V → Bool) (loggerKey : K)
    (st : SolverState K V RTy) (ordinal : Nat) :
    Except PyErr (SolverState K V RTy × ResValue RTy V) :=
  match actions.get? ordinal with
  | none => Except.error PyErr.indexError
  | some cls => do
      let _ ← unwrap_logger noneV isLogger loggerKey st
      let r ← Action.invoke cls dryRun st
      Except.ok ({ st with results := dictInsert st.results r.cls r }, r)

/-- The `for ordinal in self._graph.topological_sorting():` loop of
`solve()`: thread the state through the steps, keeping the most recent
step's result as `final_result`. -/
def runSteps {K V RTy : Type}
    (step : SolverState K V RTy → Nat →
      Except PyErr (SolverState K V RTy × ResValue RTy V)) :
    List Nat → SolverState K V RTy × ResValue RTy V →
      Except PyErr (SolverState K V RTy × ResValue RTy V)
  | [], acc => Except.ok acc
  | o :: rest, acc =>
      match step acc.1 o with
      | Except.error e => Except.error e
      | Except.ok acc' => runSteps step rest acc'

/-- `SequentialExecutionActionSolver.solve()`: start from a fresh
`VoidResult`, apply every step in the topological order, then check the
final result against the builder-declared expected type with `isinstance`
(`isinst final.cls expected`), raising `TypeError` on mismatch. -/
def solve {K V RTy : Type} [DecidableEq K] [DecidableEq RTy]
    (g : Graph) (actions : List (ActionCls K V RTy)) (dryRun : Bool)
    (expected : RTy) (isinst : RTy → RTy → Bool)
    (noneV : V) (isLogger : V → Bool) (loggerKey : K)
    (st0 : SolverState K V RTy) (voidRes : ResValue RTy V) :
    Except PyErr (SolverState K V RTy × ResValue RTy V) :=
  match runSteps (apply_step actions dryRun noneV isLogger loggerKey)
      (topological_sorting g) (st0, voidRes) with
  | Except.error e => Except.error e
  | Except.ok (st, final) =>
      if isinst final.cls expected then Except.ok (st, final)
      else Except.error PyErr.typeError

/-- The validation part of `ActionSolver.__init__` (also reached through
`from_builder`): `ValueError` when the graph has a cycle, then `ValueError`
when it has an isolated vertex (unless it is the sole vertex). -/
def vertex_all_edges_count (g : Graph) (v : Nat) : Nat :=
  (g.edges.filter fun e => e.1 == v || e.2 == v).length

/-- `ActionSolver._graph_has_leaf_nodes`. -/
def graph_has_leaf_nodes (g : Graph) : Bool :=
  if g.n == 1 then false
  else (List.range g.n).any fun v => vertex_all_edges_count g v == 0

/-- `ActionSolver.__init__`'s graph validation. -/
def solverInit (g : Graph) : Except PyErr Unit :=
  if !is_dag g then Except.error PyErr.valueError
  else if graph_has_leaf_nodes g then Except.error PyErr.valueError
  else Except.ok ()

/-! ## The builder (`builder.py`)

`A` stands for an action class object (`type[Action]`); the builder keeps
the igraph graph and the ordered list of known action classes (the vertex
with ordinal `i` is `actions[i]`).  The `dry_run` flag, the solver state
and the declared final-result type do not influence graph accumulation and
are threaded separately where a claim needs them. -/

structure Builder (A : Type) where
  graph : Graph
  actions : List A
deriving DecidableEq

/-- `ActionSolverBuilder.__init__`: empty directed graph, no actions. -/
def Builder.init {A : Type} : Builder A := ⟨⟨0, []⟩, []⟩

/-- `_add_to_known_actions_and_graph`: register the class as a new vertex
unless it is already known. -/
def Builder.addKnown {A : Type} [DecidableEq A] (b : Builder A) (a : A) : Builder A :=
  if a ∈ b.actions then b
  else ⟨⟨b.graph.n + 1, b.graph.edges⟩, b.actions ++ [a]⟩

/-- `_add_edge`: `graph.add_edge(actions.index(from), actions.index(to))`.
igraph appends the edge unconditionally — duplicates are kept. -/
def Builder.add_edge {A : Type} [DecidableEq A] (b : Builder A) (fromA toA : A) :
    Builder A :=
  { b with graph :=
      ⟨b.graph.n, b.graph.edges ++ [(b.actions.indexOf fromA, b.actions.indexOf toA)]⟩ }

/-- `add_dependency(action, depends_on)`: register both classes, then add
the edge `depends_on -> action`. -/
def Builder.add_dependency {A : Type} [DecidableEq A] (b : Builder A)
    (action dependsOn : A) : Builder A :=
  ((b.addKnown action).addKnown dependsOn).add_edge dependsOn action

/-- `add_dependencies_from(action)`: register the action, then for every
class in `action.get_dependent_actions()` add the dependency edge and
recurse.  The recursion is bounded by `fuel`, standing for Python's call
stack: the Python code recurses unconditionally, so any run that finishes
is reproduced here by a large enough `fuel`. -/
def add_dependencies_from {A : Type} [DecidableEq A] (deps : A → List A) :
    Nat → Builder A → A → Builder A
  | 0, b, _ => b
  | fuel + 1, b, a =>
      (deps a).foldl
        (fun acc d => add_dependencies_from deps fuel (acc.add_dependency a d) d)
        (b.addKnown a)

/-- The edge `dep -> act` between two registered classes, expressed with
the ordinals the builder would use for them. -/
def Builder.edgeBetween {A : Type} [DecidableEq A] (b : Builder A) (dep act : A) : Prop :=
  (b.actions.indexOf dep, b.actions.indexOf act) ∈ b.graph.edges

/-- Builder evolution only ever appends: to the known-actions list and to
the edge list. -/
def Builder.Ext {A : Type} (b b' : Builder A) : Prop :=
  (∃ t, b'.actions = b.actions ++ t) ∧ (∃ t, b'.graph.edges = b.graph.edges ++ t)

theorem Builder.ext_refl {A : Type} (b : Builder A) : b.Ext b :=
  ⟨⟨[], by simp⟩, ⟨[], by simp⟩⟩

theorem Builder.ext_trans {A : Type} {b b' b'' : Builder A}
    (h1 : b.Ext b') (h2 : b'.Ext b'') : b.Ext b'' := by
  obtain ⟨⟨t1, ht1⟩, ⟨s1, hs1⟩⟩ := h1
  obtain ⟨⟨t2, ht2⟩, ⟨s2, hs2⟩⟩ := h2
  exact ⟨⟨t1 ++ t2, by rw [ht2, ht1, List.append_assoc]⟩,
         ⟨s1 ++ s2, by rw [hs2, hs1, List.append_assoc]⟩⟩

theorem Builder.addKnown_ext {A : Type} [DecidableEq A] (b : Builder A) (a : A) :
    b.Ext (b.addKnown a) := by
  unfold Builder.addKnown
  by_cases h : a ∈ b.actions
  · simp [h, Builder.ext_refl]
  · simp [h]
    exact ⟨⟨[a], rfl⟩, ⟨[], by simp⟩⟩

theorem Builder.add_edge_ext {A : Type} [DecidableEq A] (b : Builder A) (x y : A) :
    b.Ext (b.add_edge x y) :=
  ⟨⟨[], by simp [Builder.add_edge]⟩, ⟨_, rfl⟩⟩

theorem Builder.add_dependency_ext {A : Type} [DecidableEq A] (b : Builder A)
    (a d : A) : b.Ext (b.add_dependency a d) :=
  Builder.ext_trans (Builder.ext_trans (b.addKnown_ext a) ((b.addKnown a).addKnown_ext d))
    (((b.addKnown a).addKnown d).add_edge_ext d a)

theorem Builder.mem_mono {A : Type} {b b' : Builder A} (h : b.Ext b') {a : A}
    (ha : a ∈ b.actions) : a ∈ b'.actions := by
  obtain ⟨⟨t, ht⟩, _⟩ := h
  rw [ht]
  exact List.mem_append_left t ha

theorem Builder.indexOf_eq_of_ext {A : Type} [DecidableEq A] {b b' : Builder A}
    (h : b.Ext b') {a : A} (ha : a ∈ b.actions) :
    b'.actions.indexOf a = b.actions.indexOf a := by
  obtain ⟨⟨t, ht⟩, _⟩ := h
  rw [ht]
  exact List.indexOf_append_of_mem ha

theorem Builder.edge_mono {A : Type} {b b' : Builder A} (h : b.Ext b')
    {e : Nat × Nat} (he : e ∈ b.graph.edges) : e ∈ b'.graph.edges := by
  obtain ⟨_, ⟨t, ht⟩⟩ := h
  rw [ht]
  exact List.mem_append_left t he

theorem Builder.edgeBetween_mono {A : Type} [DecidableEq A] {b b' : Builder A}
    (h : b.Ext b') {dep act : A} (hdep : dep ∈ b.actions) (hact : act ∈ b.actions)
    (he : b.edgeBetween dep act) : b'.edgeBetween dep act := by
  unfold Builder.edgeBetween at he ⊢
  rw [Builder.indexOf_eq_of_ext h hdep, Builder.indexOf_eq_of_ext h hact]
  exact Builder.edge_mono h he

theorem Builder.mem_addKnown_self {A : Type} [DecidableEq A] (b : Builder A) (a : A) :
    a ∈ (b.addKnown a).actions := by
  unfold Builder.addKnown
  by_cases h : a ∈ b.actions
  · simp only [if_pos h]
    exact h
  · simp [h]

theorem Builder.mem_add_dependency_left {A : Type} [DecidableEq A] (b : Builder A)
    (a d : A) : a ∈ (b.add_dependency a d).actions := by
  have h1 : a ∈ (b.addKnown a).actions := b.mem_addKnown_self a
  have h2 : a ∈ ((b.addKnown a).addKnown d).actions :=
    Builder.mem_mono ((b.addKnown a).addKnown_ext d) h1
  simpa [Builder.add_dependency, Builder.add_edge] using h2

theorem Builder.mem_add_dependency_right {A : Type} [DecidableEq A] (b : Builder A)
    (a d : A) : d ∈ (b.add_dependency a d).actions := by
  have h2 : d ∈ ((b.addKnown a).addKnown d).actions :=
    ((b.addKnown a).mem_addKnown_self d)
  simpa [Builder.add_dependency, Builder.add_edge] using h2

theorem Builder.add_dependency_edgeBetween {A : Type} [DecidableEq A] (b : Builder A)
    (a d : A) : (b.add_dependency a d).edgeBetween d a := by
  unfold Builder.add_dependency Builder.add_edge Builder.edgeBetween
  simp

/-- The declared-dependency relation: `v` is one of `u`'s declared
dependencies (one `get_dependent_actions()` hop). -/
def declRel {A : Type} (deps : A → List A) (u v : A) : Prop := v ∈ deps u

theorem add_dependencies_from_ext {A : Type} [DecidableEq A] (deps : A → List A) :
    ∀ (fuel : Nat) (b : Builder A) (a : A), b.Ext (add_dependencies_from deps fuel b a) := by
  intro fuel
  induction fuel with
  | zero => intro b a; exact Builder.ext_refl b
  | succ fuel ih =>
      intro b a
      have hfold : ∀ (l : List A) (acc : Builder A),
          acc.Ext (l.foldl
            (fun acc d => add_dependencies_from deps fuel (acc.add_dependency a d) d) acc) := by
        intro l
        induction l with
        | nil => intro acc; exact Builder.ext_refl acc
        | cons d l' ihl =>
            intro acc
            refine Builder.ext_trans ?_ (ihl _)
            exact Builder.ext_trans (acc.add_dependency_ext a d) (ih _ d)
      exact Builder.ext_trans (b.addKnown_ext a) (hfold (deps a) (b.addKnown a))

theorem add_dependencies_from_reaches {A : Type} [DecidableEq A]
    (deps : A → List A) (rank : A → Nat)
    (hrank : ∀ u v, v ∈ deps u → rank v < rank u) :
    ∀ (fuel : Nat) (b : Builder A) (root : A), rank root < fuel →
      (∀ x, Relation.ReflTransGen (declRel deps) root x →
        x ∈ (add_dependencies_from deps fuel b root).actions) ∧
      (∀ u v, Relation.ReflTransGen (declRel deps) root u → v ∈ deps u →
        (add_dependencies_from deps fuel b root).edgeBetween v u) := by
  intro fuel
  induction fuel with
  | zero => intro b root h; omega
  | succ fuel ih =>
      intro b root hfuel
      have hranks : ∀ d ∈ deps root, rank d < fuel := by
        intro d hd
        have := hrank root d hd
        omega
      have inner : ∀ (l : List A), (∀ d ∈ l, d ∈ deps root) →
          ∀ acc : Builder A, root ∈ acc.actions →
          (acc.Ext (l.foldl
              (fun acc d => add_dependencies_from deps fuel (acc.add_dependency root d) d) acc)) ∧
          (∀ d ∈ l,
            (∀ x, Relation.ReflTransGen (declRel deps) d x →
              x ∈ (l.foldl
                (fun acc d => add_dependencies_from deps fuel (acc.add_dependency root d) d) acc).actions) ∧
            (∀ u v, Relation.ReflTransGen (declRel deps) d u → v ∈ deps u →
              (l.foldl
                (fun acc d => add_dependencies_from deps fuel (acc.add_dependency root d) d) acc).edgeBetween v u) ∧
            (l.foldl
              (fun acc d => add_dependencies_from deps fuel (acc.add_dependency root d) d) acc).edgeBetween d root) := by
        intro l
        induction l with
        | nil =>
            intro _ acc _
            exact ⟨Builder.ext_refl acc, by simp⟩
        | cons d l' ihl =>
            intro hdl acc hroot
            have hd : d ∈ deps root := hdl d (List.mem_cons_self d l')
            have hdfuel : rank d < fuel := hranks d hd
            -- the builder after this iteration's add_dependency
            have hstep := ih (acc.add_dependency root d) d hdfuel
            -- facts about acc.add_dependency root d
            have hmem_d : d ∈ (acc.add_dependency root d).actions :=
              acc.mem_add_dependency_right root d
            have hmem_root : root ∈ (acc.add_dependency root d).actions :=
              acc.mem_add_dependency_left root d
            have hedge : (acc.add_dependency root d).edgeBetween d root :=
              acc.add_dependency_edgeBetween root d
            -- the builder after the recursive walk from d
            have hwalk_ext : (acc.add_dependency root d).Ext
                (add_dependencies_from deps fuel (acc.add_dependency root d) d) :=
              add_dependencies_from_ext deps fuel _ d
            have hmem_d' : d ∈ (add_dependencies_from deps fuel (acc.add_dependency root d) d).actions :=
              Builder.mem_mono hwalk_ext hmem_d
            have hmem_root' : root ∈ (add_dependencies_from deps fuel (acc.add_dependency root d) d).actions :=
              Builder.mem_mono hwalk_ext hmem_root
            have hedge' : (add_dependencies_from deps fuel (acc.add_dependency root d) d).edgeBetween d root :=
              Builder.edgeBetween_mono hwalk_ext hmem_d hmem_root hedge
            -- the remaining iterations
            have hrest := ihl (fun x hx => hdl x (List.mem_cons_of_mem d hx))
              (add_dependencies_from deps fuel (acc.add_dependency root d) d) hmem_root'
            obtain ⟨hrest_ext, hrest_each⟩ := hrest
            constructor
            · refine Builder.ext_trans ?_ hrest_ext
              exact Builder.ext_trans (acc.add_dependency_ext root d) hwalk_ext
            · intro d' hd'
              rcases List.mem_cons.mp hd' with rfl | hd'mem
              · refine ⟨?_, ?_, ?_⟩
                · intro x hx
                  exact Builder.mem_mono hrest_ext ((hstep.1) x hx)
                · intro u v hu hv
                  have humem : u ∈ (add_dependencies_from deps fuel (acc.add_dependency root d') d').actions :=
                    (hstep.1) u hu
                  have hvmem : v ∈ (add_dependencies_from deps fuel (acc.add_dependency root d') d').actions :=
                    (hstep.1) v (Relation.ReflTransGen.tail hu hv)
                  exact Builder.edgeBetween_mono hrest_ext hvmem humem ((hstep.2) u v hu hv)
                · exact Builder.edgeBetween_mono hrest_ext hmem_d' hmem_root' hedge'
              · exact hrest_each d' hd'mem
      have hroot1 : root ∈ (b.addKnown root).actions := b.mem_addKnown_self root
      have hmain := inner (deps root) (fun d hd => hd) (b.addKnown root) hroot1
      constructor
      · intro x hx
        rcases Relation.ReflTransGen.cases_head hx with rfl | ⟨c, hc, hcx⟩
        · exact Builder.mem_mono hmain.1 hroot1
        · exact (hmain.2 c hc).1 x hcx
      · intro u v hu hv
        rcases Relation.ReflTransGen.cases_head hu with rfl | ⟨c, hc, hcu⟩
        · exact (hmain.2 v hv).2.2
        · exact (hmain.2 c hc).2.1 u v hcu hv

theorem Builder.addKnown_of_mem {A : Type} [DecidableEq A] {b : Builder A} {a : A}
    (h : a ∈ b.actions) : b.addKnown a = b := by
  simp [Builder.addKnown, h]

theorem Builder.addKnown_nodup {A : Type} [DecidableEq A] (b : Builder A) (a : A)
    (h : b.actions.Nodup) : (b.addKnown a).actions.Nodup := by
  unfold Builder.addKnown
  by_cases hm : a ∈ b.actions
  · simpa [hm] using h
  · simp only [if_neg hm]
    refine List.Nodup.append h (List.nodup_singleton a) ?_
    intro x hx hxa
    rw [List.mem_singleton.mp hxa] at hx
    exact hm hx

theorem Builder.add_dependency_nodup {A : Type} [DecidableEq A] (b : Builder A)
    (a d : A) (h : b.actions.Nodup) : (b.add_dependency a d).actions.Nodup := by
  unfold Builder.add_dependency Builder.add_edge
  exact (b.addKnown a).addKnown_nodup d (b.addKnown_nodup a h)

theorem add_dependencies_from_nodup {A : Type} [DecidableEq A] (deps : A → List A) :
    ∀ (fuel : Nat) (b : Builder A) (a : A), b.actions.Nodup →
      (add_dependencies_from deps fuel b a).actions.Nodup := by
  intro fuel
  induction fuel with
  | zero => intro b a h; exact h
  | succ fuel ih =>
      intro b a h
      have hfold : ∀ (l : List A) (acc : Builder A), acc.actions.Nodup →
          (l.foldl
            (fun acc d => add_dependencies_from deps fuel (acc.add_dependency a d) d)
            acc).actions.Nodup := by
        intro l
        induction l with
        | nil => intro acc hacc; exact hacc
        | cons d l' ihl =>
            intro acc hacc
            exact ihl _ (ih _ d (acc.add_dependency_nodup a d hacc))
      exact hfold (deps a) (b.addKnown a) (b.addKnown_nodup a h)

/-- Repeating an identical `add_dependency` call: the vertex side is a
no-op, but `_add_edge` appends the same edge a second time. -/
theorem add_dependency_repeat {A : Type} [DecidableEq A] (b : Builder A) (a d : A) :
    ((b.add_dependency a d).add_dependency a d).actions = (b.add_dependency a d).actions ∧
    ((b.add_dependency a d).add_dependency a d).graph.n = (b.add_dependency a d).graph.n ∧
    ((b.add_dependency a d).add_dependency a d).graph.edges =
      (b.add_dependency a d).graph.edges ++
        [((b.add_dependency a d).actions.indexOf d, (b.add_dependency a d).actions.indexOf a)] := by
  have ha : a ∈ (b.add_dependency a d).actions := b.mem_add_dependency_left a d
  have hd : d ∈ (b.add_dependency a d).actions := b.mem_add_dependency_right a d
  set c := b.add_dependency a d with hc
  have heq : c.add_dependency a d = c.add_edge d a := by
    show ((c.addKnown a).addKnown d).add_edge d a = c.add_edge d a
    rw [Builder.addKnown_of_mem ha, Builder.addKnown_of_mem hd]
  rw [heq]
  exact ⟨rfl, rfl, rfl⟩

/-! ## Execution lemmas -/

theorem runSteps_last {K V RTy : Type}
    (step : SolverState K V RTy → Nat →
      Except PyErr (SolverState K V RTy × ResValue RTy V)) :
    ∀ (l : List Nat) (acc out), runSteps step l acc = Except.ok out → l ≠ [] →
      ∃ o stPrev, l.getLast? = some o ∧ step stPrev o = Except.ok out := by
  intro l
  induction l with
  | nil => intro acc out _ hne; exact absurd rfl hne
  | cons o rest ih =>
      intro acc out hrun _
      unfold runSteps at hrun
      cases hstep : step acc.1 o with
      | error e => rw [hstep] at hrun; cases hrun
      | ok acc' =>
          rw [hstep] at hrun
          cases rest with
          | nil =>
              have hrun' : (Except.ok acc' : Except PyErr _) = Except.ok out := hrun
              cases hrun'
              exact ⟨o, acc.1, rfl, hstep⟩
          | cons o' rest' =>
              have hrun' : runSteps step (o' :: rest') acc' = Except.ok out := hrun
              obtain ⟨o2, stp, hlast, hstep2⟩ := ih acc' out hrun' (by simp)
              refine ⟨o2, stp, ?_, hstep2⟩
              rw [List.getLast?_cons_cons]
              exact hlast

theorem solve_ok_inv {K V RTy : Type} [DecidableEq K] [DecidableEq RTy]
    (g : Graph) (actions : List (ActionCls K V RTy)) (dryRun : Bool)
    (expected : RTy) (isinst : RTy → RTy → Bool)
    (noneV : V) (isLogger : V → Bool) (loggerKey : K)
    (st0 : SolverState K V RTy) (voidRes : ResValue RTy V)
    (st : SolverState K V RTy) (r : ResValue RTy V)
    (h : solve g actions dryRun expected isinst noneV isLogger loggerKey st0 voidRes =
      Except.ok (st, r)) :
    runSteps (apply_step actions dryRun noneV isLogger loggerKey)
      (topological_sorting g) (st0, voidRes) = Except.ok (st, r) ∧
    isinst r.cls expected = true := by
  unfold solve at h
  cases hrun : runSteps (apply_step actions dryRun noneV isLogger loggerKey)
      (topological_sorting g) (st0, voidRes) with
  | error e => rw [hrun] at h; cases h
  | ok p =>
      rw [hrun] at h
      obtain ⟨st', r'⟩ := p
      have h' : (if isinst r'.cls expected = true then
            Except.ok (st', r')
          else Except.error PyErr.typeError) = Except.ok (st, r) := h
      by_cases hc : isinst r'.cls expected = true
      · rw [if_pos hc] at h'
        have hpr : (st', r') = (st, r) := Except.ok.inj h'
        have hr : r' = r := congrArg Prod.snd hpr
        exact ⟨h', hr ▸ hc⟩
      · rw [if_neg hc] at h'
        cases h'

theorem solve_typeError_of_failed_check {K V RTy : Type} [DecidableEq K] [DecidableEq RTy]
    (g : Graph) (actions : List (ActionCls K V RTy)) (dryRun : Bool)
    (expected : RTy) (isinst : RTy → RTy → Bool)
    (noneV : V) (isLogger : V → Bool) (loggerKey : K)
    (st0 : SolverState K V RTy) (voidRes : ResValue RTy V)
    (p : SolverState K V RTy × ResValue RTy V)
    (hrun : runSteps (apply_step actions dryRun noneV isLogger loggerKey)
      (topological_sorting g) (st0, voidRes) = Except.ok p)
    (hfail : isinst p.2.cls expected = false) :
    solve g actions dryRun expected isinst noneV isLogger loggerKey st0 voidRes =
      Except.error PyErr.typeError := by
  unfold solve
  rw [hrun]
  obtain ⟨st', r'⟩ := p
  simp only at hfail
  show (if isinst r'.cls expected = true then
      Except.ok (st', r')
    else Except.error PyErr.typeError) = Except.error PyErr.typeError
  rw [if_neg (by rw [hfail]; simp)]

theorem apply_step_ok_inv {K V RTy : Type} [DecidableEq K] [DecidableEq RTy]
    (actions : List (ActionCls K V RTy)) (dryRun : Bool)
    (noneV : V) (isLogger : V → Bool) (loggerKey : K)
    (st st' : SolverState K V RTy) (o : Nat) (r : ResValue RTy V)
    (h : apply_step actions dryRun noneV isLogger loggerKey st o = Except.ok (st', r)) :
    st'.globals = st.globals ∧ st'.results = dictInsert st.results r.cls r := by
  unfold apply_step at h
  cases hget : actions.get? o with
  | none => rw [hget] at h; cases h
  | some cls =>
      rw [hget] at h
      simp only [bind, Except.bind] at h
      cases hu : unwrap_logger noneV isLogger loggerKey st with
      | error e => rw [hu] at h; cases h
      | ok lg =>
          rw [hu] at h
          cases hi : Action.invoke cls dryRun st with
          | error e => rw [hi] at h; cases h
          | ok r' =>
              rw [hi] at h
              cases h
              exact ⟨rfl, rfl⟩

/-! ## A concrete universe: the repository's own test scenario

`src/tests/test_sequential_solver.py` defines four actions.  Result classes
are identified by `ResultClass` (every concrete `Action.Result` subclass in
the repository derives directly from the abstract base `Action.Result`),
and Python values by `PyVal`. -/

inductive ResultClass where
  | actionResult
  | voidResult
  | processInputsResult
  | addResult
  | multiplyResult
  | reverseDigitsResult
deriving DecidableEq

/-- `isinstance(r, T)` over this closed class universe: a result is an
instance of its own class, and every result class derives from the
abstract base `Action.Result`. -/
def isinstanceR (c T : ResultClass) : Bool :=
  c == T || T == ResultClass.actionResult

inductive PyVal where
  | none
  | int (n : Int)
  | str (s : String)
  | intPair (a b : Int)
  | logger
deriving DecidableEq

/-- `isinstance(v, logging.Logger)` over `PyVal`. -/
def pyIsLogger : PyVal → Bool
  | PyVal.logger => true
  | _ => false

/-- `VoidResult()`. -/
def voidRes : ResValue ResultClass PyVal := ⟨ResultClass.voidResult, PyVal.none⟩

/-- One decimal digit as a character. -/
def digitChar (d : Nat) : Char := Char.ofNat (48 + d)

/-- Decimal digits of `n`, least significant first (`fuel ≥ n + 1`). -/
def natDigitsRev : Nat → Nat → List Char
  | 0, _ => []
  | fuel + 1, n =>
      if n < 10 then [digitChar n]
      else digitChar (n % 10) :: natDigitsRev fuel (n / 10)

/-- Python `str(n)` for an int. -/
def pyStrOfInt (n : Int) : String :=
  if n < 0 then String.mk ('-' :: (natDigitsRev (n.natAbs + 1) n.natAbs).reverse)
  else String.mk (natDigitsRev (n.natAbs + 1) n.natAbs).reverse

/-- Python `s[::-1]`. -/
def pyReverseString (s : String) : String := String.mk s.data.reverse

/-- The identities of the four test action classes. -/
inductive TestAction where
  | processInputs
  | add
  | multiply
  | reverseDigits
deriving DecidableEq, Fintype

/-- The `get_dependent_actions` classmethods of the test file.
`ProcessInputs` defines none — and neither does the `Action` base class, so
`builder.add_dependencies_from` reaching it actually raises
`AttributeError` in Python; the walk is modelled here as if the lookup
yielded the empty list, which is what every other leaf action returns. -/
def testDeps : TestAction → List TestAction
  | TestAction.processInputs => []
  | TestAction.add => [TestAction.processInputs]
  | TestAction.multiply => [TestAction.add]
  | TestAction.reverseDigits => [TestAction.multiply]

/-- `ProcessInputs`: `Result(a=globals["num_a"] * 2, b=globals["num_b"] ** 2)`. -/
def processInputsCls : ActionCls String PyVal ResultClass where
  dependentResults := []
  prodImpl := fun st =>
    match Action.get_global st "num_a", Action.get_global st "num_b" with
    | Except.ok (PyVal.int a), Except.ok (PyVal.int b) =>
        Except.ok ⟨ResultClass.processInputsResult, PyVal.intPair (a * 2) (b ^ 2)⟩
    | Except.error e, _ => Except.error e
    | _, Except.error e => Except.error e
    | _, _ => Except.error PyErr.typeError
  dryImpl := none

/-- `Add`: `Result(processed.a + processed.b)` read through
`self.get_result(ProcessInputs.Result)`.  `declaredDeps` is the value of
the `dependent_actions` property (mapped to result classes): in the
repository the test classes define a `get_dependent_actions` classmethod
but never override the `dependent_actions` property that `get_result`
checks, so the faithful instantiation passes `[]`. -/
def addCls (declaredDeps : List ResultClass) : ActionCls String PyVal ResultClass where
  dependentResults := declaredDeps
  prodImpl := fun st =>
    match getResultChecked declaredDeps st ResultClass.processInputsResult with
    | Except.ok r =>
        match r.val with
        | PyVal.intPair a b => Except.ok ⟨ResultClass.addResult, PyVal.int (a + b)⟩
        | _ => Except.error PyErr.typeError
    | Except.error e => Except.error e
  dryImpl := none

/-- `Multiply`: `Result(sum * 10)`. -/
def multiplyCls (declaredDeps : List ResultClass) : ActionCls String PyVal ResultClass where
  dependentResults := declaredDeps
  prodImpl := fun st =>
    match getResultChecked declaredDeps st ResultClass.addResult with
    | Except.ok r =>
        match r.val with
        | PyVal.int s => Except.ok ⟨ResultClass.multiplyResult, PyVal.int (s * 10)⟩
        | _ => Except.error PyErr.typeError
    | Except.error e => Except.error e
  dryImpl := none

/-- `ReverseDigits`: `Result(str(product)[::-1])`. -/
def reverseDigitsCls (declaredDeps : List ResultClass) : ActionCls String PyVal ResultClass where
  dependentResults := declaredDeps
  prodImpl := fun st =>
    match getResultChecked declaredDeps st ResultClass.multiplyResult with
    | Except.ok r =>
        match r.val with
        | PyVal.int p =>
            Except.ok ⟨ResultClass.reverseDigitsResult,
              PyVal.str (pyReverseString (pyStrOfInt p))⟩
        | _ => Except.error PyErr.typeError
    | Except.error e => Except.error e
  dryImpl := none

/-- The builder of the repository's test, after
`add_dependencies_from(ReverseDigits)`. -/
def testBuilder : Builder TestAction :=
  add_dependencies_from testDeps 5 Builder.init TestAction.reverseDigits

/-- `bind_globals(num_a=4, num_b=2)` on an empty state. -/
def testGlobals : List (String × PyVal) :=
  [("num_a", PyVal.int 4), ("num_b", PyVal.int 2)]

/-- The solver's action table for the test run: ordinal `i` is
`testBuilder.actions[i]` (`[ReverseDigits, Multiply, Add, ProcessInputs]`),
with the faithful (empty) `dependent_actions` declarations. -/
def testActionTable : List (ActionCls String PyVal ResultClass) :=
  [reverseDigitsCls [], multiplyCls [], addCls [], processInputsCls]

/-- The same table with the dependency declarations the test classes
evidently intended (each `get_dependent_actions` result mapped to its
result class, as the `dependent_actions` property override should read). -/
def testActionTableDeclared : List (ActionCls String PyVal ResultClass) :=
  [reverseDigitsCls [ResultClass.multiplyResult],
   multiplyCls [ResultClass.addResult],
   addCls [ResultClass.processInputsResult],
   processInputsCls]

/-- Two actions that both return a result of the same class
(`VoidResult`-style), with distinguishable payloads. -/
def voidCls1 : ActionCls String PyVal ResultClass where
  dependentResults := []
  prodImpl := fun _ => Except.ok ⟨ResultClass.voidResult, PyVal.int 1⟩
  dryImpl := none

def voidCls2 : ActionCls String PyVal ResultClass where
  dependentResults := []
  prodImpl := fun _ => Except.ok ⟨ResultClass.voidResult, PyVal.int 2⟩
  dryImpl := none

/-- A rank certifying that the test classes' declared-dependency relation
terminates. -/
def rankT : TestAction → Nat
  | TestAction.processInputs => 0
  | TestAction.add => 1
  | TestAction.multiply => 2
  | TestAction.reverseDigits => 3

theorem graph_has_leaf_nodes_iff (g : Graph) :
    graph_has_leaf_nodes g = true ↔
      (g.n ≠ 1 ∧ ∃ v, v < g.n ∧ vertex_all_edges_count g v = 0) := by
  unfold graph_has_leaf_nodes
  by_cases h1 : g.n = 1
  · simp [h1]
  · have hbe : (g.n == 1) = false := by simpa using h1
    rw [hbe]
    simp only [Bool.false_eq_true, if_false, List.any_eq_true, List.mem_range,
      beq_iff_eq]
    constructor
    · rintro ⟨v, hv, hc⟩
      exact ⟨h1, v, hv, hc⟩
    · rintro ⟨_, v, hv, hc⟩
      exact ⟨v, hv, hc⟩

theorem solverInit_error_iff (g : Graph) :
    solverInit g = Except.error PyErr.valueError ↔
      (is_dag g = false ∨ graph_has_leaf_nodes g = true) := by
  unfold solverInit
  cases hdag : is_dag g
  · simp
  · cases hl : graph_has_leaf_nodes g
    · simp
    · simp

/-! ## The claims -/

/-- C1: for every acyclic, fully-connected graph accepted at construction,
`SequentialExecutionActionSolver.solve()` applies each registered action
exactly once (the computed order is a permutation of all action ordinals),
in an order that places every action after every action in its transitive
dependency set, and the run's final result is the `Result` produced by the
last step of that order. -/
theorem c1_solver_order_and_final_result {K V RTy : Type}
    [DecidableEq K] [DecidableEq RTy]
    (g : Graph) (actions : List (ActionCls K V RTy)) (dryRun : Bool)
    (expected : RTy) (isinst : RTy → RTy → Bool)
    (noneV : V) (isLogger : V → Bool) (loggerKey : K)
    (st0 : SolverState K V RTy) (vr : ResValue RTy V)
    (hwf : g.wf) (hdag : is_dag g = true) :
    (topological_sorting g).Perm (List.range g.n) ∧
    (∀ u v, Relation.TransGen (edgeRel g) u v →
      (topological_sorting g).indexOf u < (topological_sorting g).indexOf v) ∧
    (∀ st r, solve g actions dryRun expected isinst noneV isLogger loggerKey st0 vr =
        Except.ok (st, r) →
      topological_sorting g ≠ [] →
      ∃ o stPrev, (topological_sorting g).getLast? = some o ∧
        apply_step actions dryRun noneV isLogger loggerKey stPrev o =
          Except.ok (st, r)) := by
  refine ⟨topological_sorting_perm g hdag,
    fun u v h => topological_sorting_respects_deps g hwf hdag h, ?_⟩
  intro st r hsolve hne
  obtain ⟨hrun, _⟩ := solve_ok_inv g actions dryRun expected isinst noneV isLogger
    loggerKey st0 vr st r hsolve
  exact runSteps_last _ _ _ _ hrun hne

/-- Witness for C1 on the two-vertex chain `0 -> 1`. -/
theorem c1_witness :
    (Graph.mk 2 [(0, 1)]).wf ∧ is_dag ⟨2, [(0, 1)]⟩ = true ∧
    ((topological_sorting ⟨2, [(0, 1)]⟩).Perm (List.range (Graph.mk 2 [(0, 1)]).n) ∧
     (∀ u v, Relation.TransGen (edgeRel ⟨2, [(0, 1)]⟩) u v →
       (topological_sorting ⟨2, [(0, 1)]⟩).indexOf u <
         (topological_sorting ⟨2, [(0, 1)]⟩).indexOf v) ∧
     (∀ st r, solve ⟨2, [(0, 1)]⟩ [voidCls1, voidCls2] false ResultClass.voidResult
         isinstanceR PyVal.none pyIsLogger "logger"
         ⟨[("logger", PyVal.logger)], []⟩ voidRes = Except.ok (st, r) →
       topological_sorting ⟨2, [(0, 1)]⟩ ≠ [] →
       ∃ o stPrev, (topological_sorting ⟨2, [(0, 1)]⟩).getLast? = some o ∧
         apply_step [voidCls1, voidCls2] false PyVal.none pyIsLogger "logger" stPrev o =
           Except.ok (st, r))) :=
  ⟨by decide, by decide,
    c1_solver_order_and_final_result ⟨2, [(0, 1)]⟩ [voidCls1, voidCls2] false
      ResultClass.voidResult isinstanceR PyVal.none pyIsLogger "logger"
      ⟨[("logger", PyVal.logger)], []⟩ voidRes (by decide) (by decide)⟩

/-- C2: solver construction fails — always with the configuration error
(`ValueError`) — exactly when the graph has a cycle or has an isolated
vertex while holding at least two vertices; a single-vertex graph with no
edges is accepted. -/
theorem c2_construction_error_iff (g : Graph) (hwf : g.wf) :
    (solverInit g = Except.error PyErr.valueError ↔
      (HasCycle g ∨ (2 ≤ g.n ∧ ∃ v, v < g.n ∧ vertex_all_edges_count g v = 0))) ∧
    (∀ e, solverInit g = Except.error e → e = PyErr.valueError) ∧
    (g.n = 1 → g.edges = [] → solverInit g = Except.ok ()) := by
  have hdagiff := is_dag_iff_no_cycle g hwf
  have hfalse : is_dag g = false ↔ HasCycle g := by
    constructor
    · intro h
      by_contra hnc
      rw [hdagiff.mpr hnc] at h
      cases h
    · intro hc
      cases hb : is_dag g
      · rfl
      · exact absurd hc (hdagiff.mp hb)
  refine ⟨?_, ?_, ?_⟩
  · rw [solverInit_error_iff, hfalse, graph_has_leaf_nodes_iff]
    constructor
    · rintro (hc | ⟨h1, v, hv, hcnt⟩)
      · exact Or.inl hc
      · exact Or.inr ⟨by omega, v, hv, hcnt⟩
    · rintro (hc | ⟨h2, v, hv, hcnt⟩)
      · exact Or.inl hc
      · exact Or.inr ⟨by omega, v, hv, hcnt⟩
  · intro e he
    unfold solverInit at he
    cases hdag : is_dag g
    · rw [hdag] at he
      have he' : (Except.error PyErr.valueError : Except PyErr Unit) = Except.error e := he
      exact (Except.error.inj he').symm
    · rw [hdag] at he
      have he' : (if graph_has_leaf_nodes g = true then
          (Except.error PyErr.valueError : Except PyErr Unit) else Except.ok ()) =
          Except.error e := he
      cases hl : graph_has_leaf_nodes g
      · rw [hl] at he'
        simp at he'
      · rw [hl] at he'
        rw [if_pos rfl] at he'
        exact (Except.error.inj he').symm
  · intro h1 h2
    obtain ⟨n, es⟩ := g
    simp only at h1 h2
    subst h1
    subst h2
    rfl

/-- Witness for C2 on the two-vertex chain `0 -> 1`. -/
theorem c2_witness :
    (Graph.mk 2 [(0, 1)]).wf ∧
    ((solverInit ⟨2, [(0, 1)]⟩ = Except.error PyErr.valueError ↔
      (HasCycle ⟨2, [(0, 1)]⟩ ∨
        (2 ≤ (Graph.mk 2 [(0, 1)]).n ∧
          ∃ v, v < (Graph.mk 2 [(0, 1)]).n ∧
            vertex_all_edges_count ⟨2, [(0, 1)]⟩ v = 0))) ∧
     (∀ e, solverInit ⟨2, [(0, 1)]⟩ = Except.error e → e = PyErr.valueError) ∧
     ((Graph.mk 2 [(0, 1)]).n = 1 → (Graph.mk 2 [(0, 1)]).edges = [] →
       solverInit ⟨2, [(0, 1)]⟩ = Except.ok ())) :=
  ⟨by decide, c2_construction_error_iff ⟨2, [(0, 1)]⟩ (by decide)⟩

/-- C3: the repository's own end-to-end test scenario (globals
`num_a=4, num_b=2`, chain built by `add_dependencies_from(ReverseDigits)`)
does not return `"021"` against the code as written: the faithful run
fails the logger unwrap with `TypeError` (nothing is bound under
`"logger"`), and even with a logger bound it fails with
`MissingDependencyDeclarationException` because the test classes override
`get_dependent_actions` but never the `dependent_actions` property that
`get_result` consults.  With the declarations the test evidently intends,
the run does produce the string `"021"`. -/
theorem c3_end_to_end_test_run :
    testBuilder = ⟨⟨4, [(1, 0), (2, 1), (3, 2)]⟩,
      [TestAction.reverseDigits, TestAction.multiply, TestAction.add,
       TestAction.processInputs]⟩ ∧
    solve ⟨4, [(1, 0), (2, 1), (3, 2)]⟩ testActionTable false
      ResultClass.reverseDigitsResult isinstanceR PyVal.none pyIsLogger "logger"
      ⟨testGlobals, []⟩ voidRes = Except.error PyErr.typeError ∧
    solve ⟨4, [(1, 0), (2, 1), (3, 2)]⟩ testActionTable false
      ResultClass.reverseDigitsResult isinstanceR PyVal.none pyIsLogger "logger"
      ⟨testGlobals ++ [("logger", PyVal.logger)], []⟩ voidRes =
      Except.error PyErr.missingDependencyDeclaration ∧
    (solve ⟨4, [(1, 0), (2, 1), (3, 2)]⟩ testActionTableDeclared false
      ResultClass.reverseDigitsResult isinstanceR PyVal.none pyIsLogger "logger"
      ⟨testGlobals ++ [("logger", PyVal.logger)], []⟩ voidRes).map Prod.snd =
      Except.ok ⟨ResultClass.reverseDigitsResult, PyVal.str "021"⟩ :=
  ⟨rfl, rfl, rfl, rfl⟩

/-- C4: `get_result` on a result type that is not among the action's
declared dependent results always fails with the undeclared-dependency
error, whatever the store holds. -/
theorem c4_get_result_undeclared {K V RTy : Type} [DecidableEq RTy]
    (cls : ActionCls K V RTy) (st : SolverState K V RTy) (rt : RTy)
    (h : rt ∉ cls.dependentResults) :
    Action.get_result cls st rt = Except.error PyErr.missingDependencyDeclaration := by
  unfold Action.get_result getResultChecked
  rw [if_neg h]

/-- Witness for C4: the queried result is even present in the store. -/
theorem c4_witness :
    ResultClass.processInputsResult ∉ (addCls []).dependentResults ∧
    Action.get_result (addCls [])
      ⟨testGlobals, [(ResultClass.processInputsResult,
        ⟨ResultClass.processInputsResult, PyVal.intPair 8 4⟩)]⟩
      ResultClass.processInputsResult =
      Except.error PyErr.missingDependencyDeclaration :=
  ⟨by decide,
    c4_get_result_undeclared (addCls [])
      ⟨testGlobals, [(ResultClass.processInputsResult,
        ⟨ResultClass.processInputsResult, PyVal.intPair 8 4⟩)]⟩
      ResultClass.processInputsResult (by decide)⟩

/-- The state the C5 counterexample run starts from: only a logger bound. -/
def cexState0 : SolverState String PyVal ResultClass :=
  ⟨[("logger", PyVal.logger)], []⟩

/-- The first step's result in the C5 counterexample run. -/
def cexRes1 : ResValue ResultClass PyVal := ⟨ResultClass.voidResult, PyVal.int 1⟩

/-- The state after the C5 counterexample run's first step. -/
def cexState1 : SolverState String PyVal ResultClass :=
  ⟨[("logger", PyVal.logger)], [(ResultClass.voidResult, cexRes1)]⟩

/-- C5 (counterexample): a valid two-vertex chain whose actions both
produce a result of class `VoidResult`: the second executed step leaves the
store at one entry (not two) and replaces the first step's stored value. -/
theorem c5_counterexample :
    topological_sorting ⟨2, [(0, 1)]⟩ = [0, 1] ∧
    apply_step [voidCls1, voidCls2] false PyVal.none pyIsLogger "logger"
      ⟨[("logger", PyVal.logger)], []⟩ 0 =
      Except.ok (⟨[("logger", PyVal.logger)],
        [(ResultClass.voidResult, ⟨ResultClass.voidResult, PyVal.int 1⟩)]⟩,
        ⟨ResultClass.voidResult, PyVal.int 1⟩) ∧
    apply_step [voidCls1, voidCls2] false PyVal.none pyIsLogger "logger"
      ⟨[("logger", PyVal.logger)],
        [(ResultClass.voidResult, ⟨ResultClass.voidResult, PyVal.int 1⟩)]⟩ 1 =
      Except.ok (⟨[("logger", PyVal.logger)],
        [(ResultClass.voidResult, ⟨ResultClass.voidResult, PyVal.int 2⟩)]⟩,
        ⟨ResultClass.voidResult, PyVal.int 2⟩) :=
  ⟨rfl, rfl, rfl⟩

/-- C5 (amended): the store starts empty and each executed step writes its
result under the result's own class: when that class is fresh the store
grows by exactly one entry and no other entry changes; when the class is
already present the store size is unchanged and that entry is overwritten
(the repository never rules the second case out — nothing stops two actions
from producing results of the same class). -/
theorem c5_store_per_step {K V RTy : Type} [DecidableEq K] [DecidableEq RTy]
    (actions : List (ActionCls K V RTy)) (dryRun : Bool)
    (noneV : V) (isLogger : V → Bool) (loggerKey : K)
    (st st' : SolverState K V RTy) (o : Nat) (r : ResValue RTy V)
    (h : apply_step actions dryRun noneV isLogger loggerKey st o = Except.ok (st', r)) :
    (SolverState.construct_empty : SolverState K V RTy).results = [] ∧
    st'.globals = st.globals ∧
    (dictGet? st.results r.cls = none →
      st'.results.length = st.results.length + 1 ∧
      dictGet? st'.results r.cls = some r ∧
      ∀ k, k ≠ r.cls → dictGet? st'.results k = dictGet? st.results k) ∧
    (dictGet? st.results r.cls ≠ none →
      st'.results.length = st.results.length ∧
      dictGet? st'.results r.cls = some r ∧
      ∀ k, k ≠ r.cls → dictGet? st'.results k = dictGet? st.results k) := by
  obtain ⟨hg, hr⟩ := apply_step_ok_inv actions dryRun noneV isLogger loggerKey
    st st' o r h
  refine ⟨rfl, hg, ?_, ?_⟩
  · intro habs
    rw [hr]
    exact ⟨length_dictInsert_of_not_mem _ _ _ habs,
      dictGet?_dictInsert_self _ _ _,
      fun k hk => dictGet?_dictInsert_ne _ _ _ _ hk⟩
  · intro hmem
    rw [hr]
    exact ⟨length_dictInsert_of_mem _ _ _ hmem,
      dictGet?_dictInsert_self _ _ _,
      fun k hk => dictGet?_dictInsert_ne _ _ _ _ hk⟩

/-- Witness for C5 (amended), at the first step of the counterexample run. -/
theorem c5_witness :
    (apply_step [voidCls1, voidCls2] false PyVal.none pyIsLogger "logger"
      cexState0 0 = Except.ok (cexState1, cexRes1)) ∧
    ((SolverState.construct_empty : SolverState String PyVal ResultClass).results = [] ∧
     cexState1.globals = cexState0.globals ∧
     (dictGet? cexState0.results cexRes1.cls = none →
       cexState1.results.length = cexState0.results.length + 1 ∧
       dictGet? cexState1.results cexRes1.cls = some cexRes1 ∧
       ∀ k, k ≠ cexRes1.cls →
         dictGet? cexState1.results k = dictGet? cexState0.results k) ∧
     (dictGet? cexState0.results cexRes1.cls ≠ none →
       cexState1.results.length = cexState0.results.length ∧
       dictGet? cexState1.results cexRes1.cls = some cexRes1 ∧
       ∀ k, k ≠ cexRes1.cls →
         dictGet? cexState1.results k = dictGet? cexState0.results k)) :=
  ⟨rfl, c5_store_per_step [voidCls1, voidCls2] false PyVal.none pyIsLogger "logger"
    cexState0 cexState1 0 cexRes1 rfl⟩

/-- C6: `add_dependencies_from(root)` registers the root and, walking the
declared-dependency relation recursively, ends with a builder whose graph
contains every action reachable from the root and the dependency edge for
every declared dependency of every reachable action (stated for declared
relations on which the recursion terminates, witnessed by a rank). -/
theorem c6_add_dependencies_from_reachable {A : Type} [DecidableEq A]
    (deps : A → List A) (rank : A → Nat)
    (hrank : ∀ u v, v ∈ deps u → rank v < rank u)
    (fuel : Nat) (b : Builder A) (root : A) (hfuel : rank root < fuel) :
    (∀ x, Relation.ReflTransGen (declRel deps) root x →
      x ∈ (add_dependencies_from deps fuel b root).actions) ∧
    (∀ u v, Relation.ReflTransGen (declRel deps) root u → v ∈ deps u →
      (add_dependencies_from deps fuel b root).edgeBetween v u) :=
  add_dependencies_from_reaches deps rank hrank fuel b root hfuel

/-- Witness for C6 on the test classes' declared relation. -/
theorem c6_witness :
    (∀ u v, v ∈ testDeps u → rankT v < rankT u) ∧
    rankT TestAction.reverseDigits < 5 ∧
    ((∀ x, Relation.ReflTransGen (declRel testDeps) TestAction.reverseDigits x →
       x ∈ (add_dependencies_from testDeps 5 Builder.init
         TestAction.reverseDigits).actions) ∧
     (∀ u v, Relation.ReflTransGen (declRel testDeps) TestAction.reverseDigits u →
       v ∈ testDeps u →
       (add_dependencies_from testDeps 5 Builder.init
         TestAction.reverseDigits).edgeBetween v u)) :=
  ⟨by decide, by decide,
    c6_add_dependencies_from_reachable testDeps rankT (by decide) 5 Builder.init
      TestAction.reverseDigits (by decide)⟩

/-- C7 (counterexample): repeating the identical `add_dependency` call does
change the builder's graph — the edge is appended a second time. -/
theorem c7_counterexample :
    ((Builder.init.add_dependency TestAction.add TestAction.processInputs).add_dependency
        TestAction.add TestAction.processInputs).graph ≠
      (Builder.init.add_dependency TestAction.add TestAction.processInputs).graph := by
  decide

/-- C7 (amended): vertex registration is deduplicating — a repeated
identical `add_dependency` call leaves the known-actions list and the
vertex count unchanged, and `add_dependencies_from` walks never produce a
duplicate vertex — but every `add_dependency` call appends its edge
unconditionally, so the repeated call duplicates the edge. -/
theorem c7_vertex_dedup_edge_dup {A : Type} [DecidableEq A]
    (b : Builder A) (a d : A) (deps : A → List A) (fuel : Nat)
    (h : b.actions.Nodup) :
    (((b.add_dependency a d).add_dependency a d).actions =
        (b.add_dependency a d).actions ∧
     ((b.add_dependency a d).add_dependency a d).graph.n =
        (b.add_dependency a d).graph.n ∧
     ((b.add_dependency a d).add_dependency a d).graph.edges =
        (b.add_dependency a d).graph.edges ++
          [((b.add_dependency a d).actions.indexOf d,
            (b.add_dependency a d).actions.indexOf a)]) ∧
    (b.add_dependency a d).actions.Nodup ∧
    (add_dependencies_from deps fuel b a).actions.Nodup :=
  ⟨add_dependency_repeat b a d, b.add_dependency_nodup a d h,
    add_dependencies_from_nodup deps fuel b a h⟩

/-- Witness for C7 (amended) on the empty builder. -/
theorem c7_witness :
    (Builder.init : Builder TestAction).actions.Nodup ∧
    ((((Builder.init.add_dependency TestAction.add TestAction.processInputs).add_dependency
          TestAction.add TestAction.processInputs).actions =
        (Builder.init.add_dependency TestAction.add TestAction.processInputs).actions ∧
      ((Builder.init.add_dependency TestAction.add TestAction.processInputs).add_dependency
          TestAction.add TestAction.processInputs).graph.n =
        (Builder.init.add_dependency TestAction.add TestAction.processInputs).graph.n ∧
      ((Builder.init.add_dependency TestAction.add TestAction.processInputs).add_dependency
          TestAction.add TestAction.processInputs).graph.edges =
        (Builder.init.add_dependency TestAction.add TestAction.processInputs).graph.edges ++
          [((Builder.init.add_dependency TestAction.add TestAction.processInputs).actions.indexOf
              TestAction.processInputs,
            (Builder.init.add_dependency TestAction.add TestAction.processInputs).actions.indexOf
              TestAction.add)]) ∧
     (Builder.init.add_dependency TestAction.add TestAction.processInputs).actions.Nodup ∧
     (add_dependencies_from testDeps 3 Builder.init TestAction.add).actions.Nodup) :=
  ⟨by decide,
    c7_vertex_dedup_edge_dup Builder.init TestAction.add TestAction.processInputs
      testDeps 3 (by decide)⟩

/-- C8 (counterexample): the final check is `isinstance`, not type
equality: with the abstract base `Action.Result` declared as the expected
final type, a run finishing on a `VoidResult` returns it although the
concrete type differs from the declared one. -/
theorem c8_counterexample :
    solve ⟨0, []⟩ ([] : List (ActionCls String PyVal ResultClass)) false
      ResultClass.actionResult isinstanceR PyVal.none pyIsLogger "logger"
      SolverState.construct_empty voidRes =
      Except.ok (SolverState.construct_empty, voidRes) ∧
    voidRes.cls ≠ ResultClass.actionResult :=
  ⟨rfl, by decide⟩

/-- C8 (amended): whenever the final executed result fails the
`isinstance` check against the builder-declared expected type — in
particular whenever the concrete type differs and the declared type is not
one of its base classes — `solve()` raises `TypeError` instead of
returning the result. -/
theorem c8_solve_type_mismatch {K V RTy : Type} [DecidableEq K] [DecidableEq RTy]
    (g : Graph) (actions : List (ActionCls K V RTy)) (dryRun : Bool)
    (expected : RTy) (isinst : RTy → RTy → Bool)
    (noneV : V) (isLogger : V → Bool) (loggerKey : K)
    (st0 : SolverState K V RTy) (vr : ResValue RTy V)
    (p : SolverState K V RTy × ResValue RTy V)
    (hrun : runSteps (apply_step actions dryRun noneV isLogger loggerKey)
      (topological_sorting g) (st0, vr) = Except.ok p)
    (hfail : isinst p.2.cls expected = false) :
    solve g actions dryRun expected isinst noneV isLogger loggerKey st0 vr =
      Except.error PyErr.typeError :=
  solve_typeError_of_failed_check g actions dryRun expected isinst noneV isLogger
    loggerKey st0 vr p hrun hfail

/-- Witness for C8 (amended): an empty run checked against an unrelated
expected type. -/
theorem c8_witness :
    (runSteps (apply_step ([] : List (ActionCls String PyVal ResultClass)) false
        PyVal.none pyIsLogger "logger") (topological_sorting ⟨0, []⟩)
        (SolverState.construct_empty, voidRes) =
      Except.ok (SolverState.construct_empty, voidRes)) ∧
    isinstanceR ((SolverState.construct_empty : SolverState String PyVal ResultClass),
        voidRes).2.cls ResultClass.processInputsResult = false ∧
    solve ⟨0, []⟩ [] false ResultClass.processInputsResult isinstanceR PyVal.none
      pyIsLogger "logger" SolverState.construct_empty voidRes =
      Except.error PyErr.typeError :=
  ⟨rfl, rfl,
    c8_solve_type_mismatch ⟨0, []⟩ [] false ResultClass.processInputsResult
      isinstanceR PyVal.none pyIsLogger "logger" SolverState.construct_empty voidRes
      (SolverState.construct_empty, voidRes) rfl rfl⟩

/-- C9: the reserved-key observability sink is not optional in the code:
`_unwrap_logger` raises `TypeError` when nothing is bound under
`"logger"` (Python `None` is not a `logging.Logger`), raises `TypeError`
for a wrongly-shaped bound value, and only succeeds when an actual logger
is bound — so action instantiation, and with it every execution step,
fails unless a logger is bound. -/
theorem c9_unwrap_logger_not_optional :
    unwrap_logger PyVal.none pyIsLogger "logger"
      (⟨testGlobals, []⟩ : SolverState String PyVal ResultClass) =
      Except.error PyErr.typeError ∧
    unwrap_logger PyVal.none pyIsLogger "logger"
      (⟨[("logger", PyVal.int 3)], []⟩ : SolverState String PyVal ResultClass) =
      Except.error PyErr.typeError ∧
    unwrap_logger PyVal.none pyIsLogger "logger"
      (⟨[("logger", PyVal.logger)], []⟩ : SolverState String PyVal ResultClass) =
      Except.ok PyVal.logger ∧
    apply_step [voidCls1, voidCls2] false PyVal.none pyIsLogger "logger"
      (⟨testGlobals, []⟩ : SolverState String PyVal ResultClass) 0 =
      Except.error PyErr.typeError :=
  ⟨rfl, rfl, rfl, rfl⟩

/-- C10: a builder on which nothing was registered yields the empty graph;
construction succeeds on it (both checks pass), `solve()` runs zero steps,
and the fresh `VoidResult` is returned exactly when the declared expected
final type admits it (`VoidResult` itself or the abstract base), failing
the final type check otherwise. -/
theorem c10_empty_builder_run (expected : ResultClass) :
    (Builder.init : Builder TestAction).graph = ⟨0, []⟩ ∧
    solverInit ⟨0, []⟩ = Except.ok () ∧
    topological_sorting ⟨0, []⟩ = [] ∧
    solve ⟨0, []⟩ ([] : List (ActionCls String PyVal ResultClass)) false expected
      isinstanceR PyVal.none pyIsLogger "logger"
      SolverState.construct_empty voidRes =
      (if isinstanceR ResultClass.voidResult expected then
        Except.ok (SolverState.construct_empty, voidRes)
      else Except.error PyErr.typeError) := by
  refine ⟨rfl, rfl, rfl, ?_⟩
  cases expected <;> rfl

end ActionSolverSpec
